import Mathlib

/-!
Verification development for the Log-Management-System repository.

We shallowly embed the core pure logic of the system:
  * `classify_severity` and `correlate_incidents` from
    `app/modules/anomaly_detector.py`,
  * `compress_log_block` / `decompress_block` from
    `app/modules/compression.py`,
  * `TemplateParser.parse` from `app/modules/template_parser.py`.

External library calls (hashlib's MD5, `json.dumps`/`json.loads`,
`zlib.compress`/`zlib.decompress`) are modelled as explicit function
parameters; the theorems that need their documented behaviour (e.g. the
decompress-of-compress round trip) take that behaviour as a hypothesis,
and witnesses instantiate the parameters with concrete functions that
satisfy it.  Anomaly scores (Python floats) are modelled as rationals;
timestamps in the incident correlator as integers (minutes).
-/

namespace LogMgmt

/-! ### Severity classification (`anomaly_detector.py`, `classify_severity`) -/

/-- `severity_map = {1: "MEDIUM", 2: "HIGH", 3: "CRITICAL"}` together with the
`.get(base_severity, "MEDIUM")` default from the source. -/
def severity_map (n : Nat) : String :=
  if n = 1 then "MEDIUM"
  else if n = 2 then "HIGH"
  else if n = 3 then "CRITICAL"
  else "MEDIUM"

/-- The base tier from the score thresholds in `classify_severity`
(`score < -0.20 → 3`, `score < -0.10 → 2`, else `1`).  The float score is
modelled as a rational. -/
def base_severity (score : ℚ) : ℕ :=
  if score < -20/100 then 3 else if score < -10/100 then 2 else 1

/-- The frequency escalation step of `classify_severity`
(`frequency > 1000 → max base 3`, `frequency > 500 → max base 2`). -/
def boost_severity (base : ℕ) (frequency : ℕ) : ℕ :=
  if frequency > 1000 then max base 3
  else if frequency > 500 then max base 2
  else base

/-- Embedding of `classify_severity(score, frequency)`: base tier from the
score thresholds, then escalation by frequency, then the name lookup. -/
def classify_severity (score : ℚ) (frequency : ℕ) : String :=
  severity_map (boost_severity (base_severity score) frequency)

/-- Numeric rank of a severity name, on the order MEDIUM < HIGH < CRITICAL. -/
def sevRank (s : String) : ℕ :=
  if s = "MEDIUM" then 1 else if s = "HIGH" then 2 else if s = "CRITICAL" then 3 else 0

theorem base_severity_le (s : ℚ) : 1 ≤ base_severity s ∧ base_severity s ≤ 3 := by
  unfold base_severity; split_ifs <;> omega

theorem base_severity_anti {s₁ s₂ : ℚ} (h : s₁ ≤ s₂) :
    base_severity s₂ ≤ base_severity s₁ := by
  unfold base_severity
  split_ifs <;> first | omega | linarith

theorem boost_severity_le {b : ℕ} (hb : b ≤ 3) (f : ℕ) : boost_severity b f ≤ 3 := by
  unfold boost_severity; split_ifs <;> omega

theorem boost_severity_ge {b : ℕ} (hb : 1 ≤ b) (f : ℕ) : 1 ≤ boost_severity b f := by
  unfold boost_severity; split_ifs <;> omega

theorem boost_severity_mono_base {b₁ b₂ : ℕ} (h : b₁ ≤ b₂) (f : ℕ) :
    boost_severity b₁ f ≤ boost_severity b₂ f := by
  unfold boost_severity; split_ifs <;> omega

theorem boost_severity_mono_freq (b : ℕ) {f₁ f₂ : ℕ} (h : f₁ ≤ f₂) :
    boost_severity b f₁ ≤ boost_severity b f₂ := by
  unfold boost_severity; split_ifs <;> omega

theorem sevRank_severity_map {n : ℕ} (h1 : 1 ≤ n) (h3 : n ≤ 3) :
    sevRank (severity_map n) = n := by
  interval_cases n <;> decide

/-- C3: severity is antitone in the score, monotone in the frequency, and the
frequency thresholds force at least CRITICAL / at least HIGH. -/
theorem classify_severity_monotone (s₁ s₂ : ℚ) (f f₁ f₂ : ℕ) :
    (s₁ ≤ s₂ → sevRank (classify_severity s₂ f) ≤ sevRank (classify_severity s₁ f)) ∧
    (f₁ ≤ f₂ → sevRank (classify_severity s₁ f₁) ≤ sevRank (classify_severity s₁ f₂)) ∧
    (1000 < f → classify_severity s₁ f = "CRITICAL") ∧
    (500 < f → sevRank "HIGH" ≤ sevRank (classify_severity s₁ f)) := by
  have rank : ∀ (s : ℚ) (g : ℕ),
      sevRank (classify_severity s g) = boost_severity (base_severity s) g := by
    intro s g
    exact sevRank_severity_map
      (boost_severity_ge (base_severity_le s).1 g)
      (boost_severity_le (base_severity_le s).2 g)
  refine ⟨?_, ?_, ?_, ?_⟩
  · intro h
    rw [rank, rank]
    exact boost_severity_mono_base (base_severity_anti h) f
  · intro h
    rw [rank, rank]
    exact boost_severity_mono_freq _ h
  · intro h
    unfold classify_severity
    have : boost_severity (base_severity s₁) f = 3 := by
      have := (base_severity_le s₁).2
      unfold boost_severity; split_ifs <;> omega
    rw [this]; rfl
  · intro h
    rw [rank]
    have : sevRank "HIGH" = 2 := by decide
    rw [this]
    have := (base_severity_le s₁).1
    unfold boost_severity; split_ifs <;> omega

/-- Witness for C3 at concrete inputs. -/
theorem classify_severity_monotone_witness :
    sevRank (classify_severity 0 700) ≤ sevRank (classify_severity (-1) 700) ∧
    classify_severity 0 1001 = "CRITICAL" :=
  ⟨(classify_severity_monotone (-1) 0 700 0 0).1 (by norm_num),
   (classify_severity_monotone 0 0 1001 0 0).2.2.1 (by norm_num)⟩

/-! ### Incident correlation (`anomaly_detector.py`, `correlate_incidents`)

MongoDB state is modelled as an explicit list of incidents in natural
(insertion) order; `datetime.utcnow()` is passed in as an integer `now`
measured in minutes. -/

/-- One flattened anomaly record as built in `detect_and_store_anomalies`. -/
structure Anomaly where
  template_id : String
  template_string : String
  severity : String
  score : ℚ
  timestamp : ℤ
deriving DecidableEq

/-- An incident document as created by `correlate_incidents`. -/
structure Incident where
  created_at : ℤ
  last_updated : ℤ
  status : String
  severity : String
  anomalies : List Anomaly
  anomaly_count : ℕ
  title : String
deriving DecidableEq

def CORRELATION_WINDOW_MINUTES : ℤ := 15

/-- The Mongo filter `{"last_updated": {"$gte": window_start}, "status": "OPEN"}`. -/
def isActive (now : ℤ) (i : Incident) : Bool :=
  decide (now - CORRELATION_WINDOW_MINUTES ≤ i.last_updated) && (i.status == "OPEN")

/-- The `update_one` applied to the chosen active incident: push the new
anomalies, bump `last_updated`, add to the count, and upgrade the severity to
CRITICAL when any new anomaly is CRITICAL. -/
def mergeIncident (now : ℤ) (new_anomalies : List Anomaly) (i : Incident) : Incident :=
  { i with
    anomalies := i.anomalies ++ new_anomalies
    last_updated := now
    anomaly_count := i.anomaly_count + new_anomalies.length
    severity :=
      if new_anomalies.any (fun a => a.severity == "CRITICAL") then "CRITICAL"
      else i.severity }

/-- `highest_severity` computed when creating a new incident. -/
def highest_severity (anoms : List Anomaly) : String :=
  if anoms.any (fun a => a.severity == "CRITICAL") then "CRITICAL"
  else if anoms.any (fun a => a.severity == "HIGH") then "HIGH"
  else "MEDIUM"

/-- The `new_incident` document inserted when no active incident exists. -/
def new_incident (now : ℤ) (anoms : List Anomaly) : Incident :=
  { created_at := now
    last_updated := now
    status := "OPEN"
    severity := highest_severity anoms
    anomalies := anoms
    anomaly_count := anoms.length
    title := "Incident: Burst of " ++ toString anoms.length ++ " anomalies detected" }

/-- Replace the first incident matching the active filter (the document
`active_incidents[0]`, i.e. the first match in natural order) with its merged
version, leaving the rest of the store unchanged. -/
def updateFirstActive (now : ℤ) (anoms : List Anomaly) : List Incident → List Incident
  | [] => []
  | i :: rest =>
      if isActive now i then mergeIncident now anoms i :: rest
      else i :: updateFirstActive now anoms rest

/-- Embedding of `correlate_incidents(new_anomalies)` as a function of the
incident store and the current time. -/
def correlate_incidents (now : ℤ) (store : List Incident)
    (new_anomalies : List Anomaly) : List Incident :=
  if new_anomalies.isEmpty then store
  else if store.any (isActive now) then updateFirstActive now new_anomalies store
  else store ++ [new_incident now new_anomalies]

/-- The larger of two severity names under MEDIUM < HIGH < CRITICAL. -/
def sevMax (a b : String) : String := if sevRank a ≤ sevRank b then b else a

/-- The maximum severity over a list of anomalies (MEDIUM when empty),
written from the claim: the fold of the pairwise maximum. -/
def maxSeverityOf (l : List Anomaly) : String :=
  (l.map (fun a => a.severity)).foldr sevMax "MEDIUM"

theorem maxSeverityOf_highCrit (l : List Anomaly)
    (h : ∀ a ∈ l, a.severity = "HIGH" ∨ a.severity = "CRITICAL") (hne : l ≠ []) :
    maxSeverityOf l =
      if l.any (fun a => a.severity == "CRITICAL") then "CRITICAL" else "HIGH" := by
  induction l with
  | nil => exact absurd rfl hne
  | cons a t ih =>
      have ha := h a (List.mem_cons_self a t)
      by_cases ht : t = []
      · subst ht
        rcases ha with ha | ha <;> simp [maxSeverityOf, sevMax, sevRank, ha]
      · have ih' := ih (fun b hb => h b (List.mem_cons_of_mem a hb)) ht
        rcases ha with ha | ha <;>
          · simp only [maxSeverityOf, List.map_cons, List.foldr_cons, List.any_cons]
            rw [show (t.map (fun a => a.severity)).foldr sevMax "MEDIUM" =
                  maxSeverityOf t from rfl, ih']
            by_cases hc : t.any (fun a => a.severity == "CRITICAL") = true <;>
              simp [hc, ha, sevMax, sevRank]

theorem isActive_mono {t₁ t₂ : ℤ} (h : t₁ ≤ t₂) (i : Incident)
    (ha : isActive t₂ i = true) : isActive t₁ i = true := by
  simp only [isActive, Bool.and_eq_true, decide_eq_true_eq] at *
  exact ⟨by omega, ha.2⟩

theorem updateFirstActive_append_of_inactive (now : ℤ) (anoms : List Anomaly)
    (l l' : List Incident) (h : ∀ i ∈ l, isActive now i = false) :
    updateFirstActive now anoms (l ++ l') = l ++ updateFirstActive now anoms l' := by
  induction l with
  | nil => rfl
  | cons i t ih =>
      have hi := h i (List.mem_cons_self i t)
      simp [updateFirstActive, hi, ih (fun j hj => h j (List.mem_cons_of_mem i hj))]

/-- C4: from a quiet store, two non-empty HIGH/CRITICAL batches within the
correlation window produce a single new incident whose count is the sum of the
batch sizes and whose severity is the maximum over all merged anomalies. -/
theorem incident_merge (store : List Incident) (b₁ b₂ : List Anomaly) (t₁ t₂ : ℤ)
    (hquiet : ∀ i ∈ store, isActive t₁ i = false)
    (h₁ : b₁ ≠ []) (h₂ : b₂ ≠ [])
    (horder : t₁ ≤ t₂) (hwin : t₂ - CORRELATION_WINDOW_MINUTES ≤ t₁)
    (hsev : ∀ a ∈ b₁ ++ b₂, a.severity = "HIGH" ∨ a.severity = "CRITICAL") :
    ∃ inc : Incident,
      correlate_incidents t₂ (correlate_incidents t₁ store b₁) b₂ = store ++ [inc] ∧
      inc.anomaly_count = b₁.length + b₂.length ∧
      inc.anomalies = b₁ ++ b₂ ∧
      inc.severity = maxSeverityOf (b₁ ++ b₂) := by
  have hquiet₂ : ∀ i ∈ store, isActive t₂ i = false := by
    intro i hi
    by_contra hne
    have := isActive_mono horder i (by
      cases hh : isActive t₂ i
      · exact absurd hh hne
      · rfl)
    rw [hquiet i hi] at this
    exact Bool.false_ne_true this
  have hb₁ : b₁.isEmpty = false := by
    cases b₁ with
    | nil => exact absurd rfl h₁
    | cons a t => rfl
  have hb₂ : b₂.isEmpty = false := by
    cases b₂ with
    | nil => exact absurd rfl h₂
    | cons a t => rfl
  have hstoreAny : store.any (isActive t₁) = false := by
    rw [List.any_eq_false]
    intro i hi
    rw [hquiet i hi]
    exact Bool.false_ne_true
  have hstep₁ : correlate_incidents t₁ store b₁ = store ++ [new_incident t₁ b₁] := by
    unfold correlate_incidents
    rw [hb₁, hstoreAny]
    rfl
  have hactNew : isActive t₂ (new_incident t₁ b₁) = true := by
    simp only [isActive, new_incident, Bool.and_eq_true, decide_eq_true_eq]
    exact ⟨by omega, rfl⟩
  have hanyAll : (store ++ [new_incident t₁ b₁]).any (isActive t₂) = true := by
    rw [List.any_append]
    simp [hactNew]
  refine ⟨mergeIncident t₂ b₂ (new_incident t₁ b₁), ?_, ?_, ?_, ?_⟩
  · rw [hstep₁]
    unfold correlate_incidents
    rw [hb₂, hanyAll]
    simp only [if_true]
    rw [updateFirstActive_append_of_inactive t₂ b₂ store _ hquiet₂]
    simp [updateFirstActive, hactNew]
  · simp [mergeIncident, new_incident]
  · simp [mergeIncident, new_incident]
  · have hs₁ : ∀ a ∈ b₁, a.severity = "HIGH" ∨ a.severity = "CRITICAL" := by
      intro a ha; exact hsev a (List.mem_append_left _ ha)
    have hs₂ : ∀ a ∈ b₂, a.severity = "HIGH" ∨ a.severity = "CRITICAL" := by
      intro a ha; exact hsev a (List.mem_append_right _ ha)
    have happ : b₁ ++ b₂ ≠ [] := by
      cases b₁ with
      | nil => exact absurd rfl h₁
      | cons a t => simp
    rw [maxSeverityOf_highCrit (b₁ ++ b₂) hsev happ]
    simp only [mergeIncident, new_incident, highest_severity, List.any_append]
    by_cases hc₂ : b₂.any (fun a => a.severity == "CRITICAL") = true <;>
      by_cases hc₁ : b₁.any (fun a => a.severity == "CRITICAL") = true <;>
        simp [hc₁, hc₂]
    -- remaining case: neither batch has a CRITICAL anomaly, so b₁ is all HIGH
    rcases b₁ with _ | ⟨a, t⟩
    · exact absurd rfl h₁
    · refine ⟨a, List.mem_cons_self a t, ?_⟩
      rcases hs₁ a (List.mem_cons_self a t) with ha | ha
      · exact ha
      · exact absurd (List.any_eq_true.mpr ⟨a, List.mem_cons_self a t, by simp [ha]⟩) hc₁

/-- Witness for C4 at a concrete store, batches and times. -/
theorem incident_merge_witness :
    ∃ inc : Incident,
      correlate_incidents 105
        (correlate_incidents 100 []
          [⟨"A", "tmplA", "HIGH", 0, 100⟩])
        [⟨"B", "tmplB", "CRITICAL", 0, 105⟩] = [] ++ [inc] ∧
      inc.anomaly_count = 1 + 1 ∧
      inc.anomalies = [⟨"A", "tmplA", "HIGH", 0, 100⟩, ⟨"B", "tmplB", "CRITICAL", 0, 105⟩] ∧
      inc.severity = maxSeverityOf
        ([⟨"A", "tmplA", "HIGH", 0, 100⟩] ++ [⟨"B", "tmplB", "CRITICAL", 0, 105⟩]) := by
  have h := incident_merge [] [⟨"A", "tmplA", "HIGH", 0, 100⟩]
    [⟨"B", "tmplB", "CRITICAL", 0, 105⟩] 100 105
    (by intro i hi; exact absurd hi (List.not_mem_nil i))
    (by simp) (by simp) (by norm_num) (by norm_num [CORRELATION_WINDOW_MINUTES])
    (by intro a ha; fin_cases ha <;> simp)
  simpa using h

/-! ### Columnar compression (`compression.py`)

`json.dumps`/`json.loads` and `zlib.compress`/`zlib.decompress` are external
library calls; they are modelled as the four fields of a `Codecs` record, and
the round-trip theorems take their documented inverse behaviour as
hypotheses.  Bytes are naturals; `bytes.hex()`/`bytes.fromhex` are modelled
concretely below. -/

/-- One parsed log dict as consumed by `compress_log_block`.  `none` models a
missing `template_id`/`timestamp` key (`log.get(...)`). -/
structure LogEntry where
  template_id : Option String
  parameters : List String
  timestamp : Option String
deriving DecidableEq

/-- The external serializer/compressor pair used by the module:
`ser`/`deser` stand for `json.dumps(·).encode("utf-8")` / `json.loads`,
`comp`/`decomp` for `zlib.compress(·, 6)` / `zlib.decompress`. -/
structure Codecs where
  ser : List (List String) → List ℕ
  deser : List ℕ → Option (List (List String))
  comp : List ℕ → List ℕ
  decomp : List ℕ → Option (List ℕ)

/-- The per-template dict stored in `compressed_blocks`.  The source formats
`compression_ratio` as an f-string percentage; we keep the rounded number. -/
structure Block where
  template_id : String
  log_count : ℕ
  compression_ratio : ℚ
  compressed_size_bytes : ℕ
  original_size_bytes : ℕ
  start_time : String
  end_time : String
  compressed_params_hex : String
deriving DecidableEq

/-- Lowercase hex digit, as produced by `bytes.hex()`. -/
def hexDigitChar (n : ℕ) : Char :=
  if n < 10 then Char.ofNat (48 + n) else Char.ofNat (87 + n)

def byteToHex (b : ℕ) : List Char := [hexDigitChar (b / 16), hexDigitChar (b % 16)]

/-- `compressed_data.hex()`. -/
def toHex (bs : List ℕ) : String := String.mk ((bs.map byteToHex).flatten)

def hexVal (c : Char) : Option ℕ :=
  if '0' ≤ c ∧ c ≤ '9' then some (c.toNat - 48)
  else if 'a' ≤ c ∧ c ≤ 'f' then some (c.toNat - 87)
  else if 'A' ≤ c ∧ c ≤ 'F' then some (c.toNat - 55)
  else none

def fromHexChars : List Char → Option (List ℕ)
  | [] => some []
  | [_] => none
  | c₁ :: c₂ :: rest =>
      (hexVal c₁).bind fun h =>
        (hexVal c₂).bind fun l =>
          (fromHexChars rest).map fun tl => (16 * h + l) :: tl

/-- `bytes.fromhex` on well-formed input (failure = `ValueError`). -/
def fromHex (s : String) : Option (List ℕ) := fromHexChars s.data

theorem hexVal_hexDigitChar {d : ℕ} (h : d < 16) : hexVal (hexDigitChar d) = some d := by
  interval_cases d <;> decide

theorem fromHexChars_byte {b : ℕ} (hb : b < 256) (rest : List Char) :
    fromHexChars (byteToHex b ++ rest) =
      (fromHexChars rest).map fun tl => b :: tl := by
  have h₁ : b / 16 < 16 := Nat.div_lt_of_lt_mul (by omega)
  have h₂ : b % 16 < 16 := Nat.mod_lt _ (by omega)
  have hb' : 16 * (b / 16) + b % 16 = b := by omega
  simp [byteToHex, fromHexChars, hexVal_hexDigitChar h₁, hexVal_hexDigitChar h₂, hb']

theorem fromHex_toHex (bs : List ℕ) (h : ∀ b ∈ bs, b < 256) :
    fromHex (toHex bs) = some bs := by
  induction bs with
  | nil => rfl
  | cons b t ih =>
      have hb := h b (List.mem_cons_self b t)
      have ht := ih fun x hx => h x (List.mem_cons_of_mem b hx)
      show fromHexChars (byteToHex b ++ (t.map byteToHex).flatten) = some (b :: t)
      rw [fromHexChars_byte hb]
      have : fromHexChars (t.map byteToHex).flatten = some t := ht
      rw [this]
      rfl

/-- The truthiness test `if template_id:` on `log.get("template_id")`:
both a missing key and an empty string are skipped. -/
def truthyId (e : LogEntry) : Option String :=
  match e.template_id with
  | none => none
  | some s => if s = "" then none else some s

/-- First-occurrence deduplication: the iteration order of the insertion-ordered
`grouped_by_template` dict. -/
def dedupFirst : List String → List String
  | [] => []
  | x :: xs => x :: (dedupFirst xs).filter (fun y => y ≠ x)

def groupKeys (logs : List LogEntry) : List String :=
  dedupFirst (logs.filterMap truthyId)

def groupEntries (logs : List LogEntry) (tid : String) : List LogEntry :=
  logs.filter (fun e => truthyId e = some tid)

/-- `grouped_by_template[tid]`: the parameter rows of the group, in arrival order. -/
def groupRows (logs : List LogEntry) (tid : String) : List (List String) :=
  (groupEntries logs tid).map (fun e => e.parameters)

/-- `timestamps_by_template[tid]`; a missing timestamp defaults to `str(utcnow())`,
passed in as `now`. -/
def groupTimes (now : String) (logs : List LogEntry) (tid : String) : List String :=
  (groupEntries logs tid).map (fun e => e.timestamp.getD now)

/-- The column-building loop: column `i` collects `param_set[i]` over the rows
whose length equals `num_params`; other rows are dropped. -/
def buildColumns (n : ℕ) (rows : List (List String)) : List (List String) :=
  (List.range n).map fun i => (rows.filter (fun r => r.length = n)).map (fun r => r.getD i "")

/-- Model of Python's `round(q, 2)`. -/
def round2 (q : ℚ) : ℚ := ((round (q * 100) : ℤ) : ℚ) / 100

/-- The block dict built for one template group (`rows` is `all_params`). -/
def mkBlock (c : Codecs) (now : String) (logs : List LogEntry) (tid : String) : Block :=
  let rows := groupRows logs tid
  let times := groupTimes now logs tid
  let n := (rows.headD []).length
  let columnar_json := c.ser (buildColumns n rows)
  let compressed_data := c.comp columnar_json
  { template_id := tid
    log_count := rows.length
    compression_ratio :=
      if columnar_json.length = 0 then 0
      else round2 ((1 - (compressed_data.length : ℚ) / (columnar_json.length : ℚ)) * 100)
    compressed_size_bytes := compressed_data.length
    original_size_bytes := columnar_json.length
    start_time := times.headD ""
    end_time := times.getLast?.getD ""
    compressed_params_hex := toHex compressed_data }

/-- The loop body over `grouped_by_template.items()`: `None` models the
`if not all_params: continue` skip. -/
def blockFor (c : Codecs) (now : String) (logs : List LogEntry) (tid : String) :
    Option Block :=
  if (groupRows logs tid).isEmpty then none else some (mkBlock c now logs tid)

/-- Embedding of `compress_log_block(parsed_logs)`: the returned mapping as an
association list in template-first-occurrence order. -/
def compress_log_block (c : Codecs) (now : String) (logs : List LogEntry) :
    List (String × Block) :=
  if logs.isEmpty then []
  else (groupKeys logs).filterMap fun tid => (blockFor c now logs tid).map (Prod.mk tid)

/-- The `try` body of `decompress_block`: hex decode, `zlib.decompress`,
`json.loads`; `none` models a raised exception. -/
def decompress_attempt (c : Codecs) (compressed_hex : String) :
    Option (List (List String)) :=
  (fromHex compressed_hex).bind fun bs => (c.decomp bs).bind c.deser

/-- Embedding of `decompress_block(compressed_hex)`: every exception is caught
and the function returns `[]` instead. -/
def decompress_block (c : Codecs) (compressed_hex : String) : List (List String) :=
  (decompress_attempt c compressed_hex).getD []

/-- The column arrays as worded by the round-trip claim: column `i` is the
ordered list of parameter `i` across the group's events, with the column count
taken from the group's first event. -/
def claimColumns (rows : List (List String)) : List (List String) :=
  (List.range (rows.headD []).length).map fun i => rows.map (fun r => r.getD i "")

/-! ### A concrete serializer/compressor satisfying the library contracts

Used by the witnesses: a simple injective byte encoding (`witSer`/`witDeser`)
standing in for `json.dumps`/`json.loads`, and the identity standing in for
`zlib.compress`/`zlib.decompress`.  All emitted bytes are 0 or 1. -/

def encNat (n : ℕ) : List ℕ := List.replicate n 1 ++ [0]

def decNat : List ℕ → Option (ℕ × List ℕ)
  | 0 :: rest => some (0, rest)
  | 1 :: rest => (decNat rest).map fun p => (p.1 + 1, p.2)
  | _ => none

def encListWith {α : Type} (f : α → List ℕ) (xs : List α) : List ℕ :=
  encNat xs.length ++ (xs.map f).flatten

def decCount {α : Type} (dec : List ℕ → Option (α × List ℕ)) :
    ℕ → List ℕ → Option (List α × List ℕ)
  | 0, l => some ([], l)
  | n + 1, l =>
      (dec l).bind fun p => (decCount dec n p.2).map fun q => (p.1 :: q.1, q.2)

def decListWith {α : Type} (dec : List ℕ → Option (α × List ℕ)) (l : List ℕ) :
    Option (List α × List ℕ) :=
  (decNat l).bind fun p => decCount dec p.1 p.2

def encChar (ch : Char) : List ℕ := encNat ch.toNat

def decChar (l : List ℕ) : Option (Char × List ℕ) :=
  (decNat l).map fun p => (Char.ofNat p.1, p.2)

def encStr (s : String) : List ℕ := encListWith encChar s.data

def decStr (l : List ℕ) : Option (String × List ℕ) :=
  (decListWith decChar l).map fun p => (String.mk p.1, p.2)

def witSer (cols : List (List String)) : List ℕ :=
  encListWith (encListWith encStr) cols

def witDeser (l : List ℕ) : Option (List (List String)) :=
  (decListWith (fun l' => (decListWith decStr l').map fun p => (p.1, p.2)) l).map
    fun p => p.1

def witCodecs : Codecs :=
  { ser := witSer, deser := witDeser, comp := id, decomp := some }

theorem decNat_encNat (n : ℕ) (rest : List ℕ) :
    decNat (encNat n ++ rest) = some (n, rest) := by
  induction n with
  | zero => rfl
  | succ m ih =>
      show decNat (1 :: (List.replicate m 1 ++ [0] ++ rest)) = some (m + 1, rest)
      show (decNat (encNat m ++ rest)).map _ = _
      rw [ih]
      rfl

theorem decChar_encChar (c : Char) (rest : List ℕ) :
    decChar (encChar c ++ rest) = some (c, rest) := by
  show (decNat (encNat c.toNat ++ rest)).map _ = _
  rw [decNat_encNat]
  show some (Char.ofNat c.toNat, rest) = some (c, rest)
  rw [Char.ofNat_toNat]

theorem decCount_enc {α : Type} (f : α → List ℕ)
    (dec : List ℕ → Option (α × List ℕ))
    (hfd : ∀ a rest, dec (f a ++ rest) = some (a, rest)) (xs : List α)
    (rest : List ℕ) :
    decCount dec xs.length ((xs.map f).flatten ++ rest) = some (xs, rest) := by
  induction xs with
  | nil => rfl
  | cons a t ih =>
      have harr : (List.map f (a :: t)).flatten ++ rest =
          f a ++ ((t.map f).flatten ++ rest) := by simp
      rw [List.length_cons, harr]
      show (dec (f a ++ ((t.map f).flatten ++ rest))).bind
        (fun p => (decCount dec t.length p.2).map fun q => (p.1 :: q.1, q.2)) =
        some (a :: t, rest)
      rw [hfd]
      show (decCount dec t.length ((t.map f).flatten ++ rest)).map
        (fun q => (a :: q.1, q.2)) = some (a :: t, rest)
      rw [ih]
      rfl

theorem decListWith_encListWith {α : Type} (f : α → List ℕ)
    (dec : List ℕ → Option (α × List ℕ))
    (hfd : ∀ a rest, dec (f a ++ rest) = some (a, rest)) (xs : List α)
    (rest : List ℕ) :
    decListWith dec (encListWith f xs ++ rest) = some (xs, rest) := by
  unfold decListWith encListWith
  rw [List.append_assoc, decNat_encNat]
  exact decCount_enc f dec hfd xs rest

theorem decStr_encStr (s : String) (rest : List ℕ) :
    decStr (encStr s ++ rest) = some (s, rest) := by
  show (decListWith decChar (encListWith encChar s.data ++ rest)).map _ = _
  rw [decListWith_encListWith encChar decChar decChar_encChar]
  rfl

theorem witDeser_witSer (x : List (List String)) : witDeser (witSer x) = some x := by
  unfold witDeser witSer
  have hcol : ∀ (col : List String) (rest : List ℕ),
      (decListWith decStr (encListWith encStr col ++ rest)).map
          (fun p => (p.1, p.2)) = some (col, rest) := by
    intro col rest
    rw [decListWith_encListWith encStr decStr decStr_encStr]
    rfl
  have := decListWith_encListWith (encListWith encStr)
    (fun l' => (decListWith decStr l').map fun p => (p.1, p.2)) hcol x []
  rw [List.append_nil] at this
  rw [this]
  rfl

theorem encNat_bytes (n : ℕ) : ∀ b ∈ encNat n, b < 256 := by
  intro b hb
  rcases List.mem_append.mp hb with h | h
  · rw [List.eq_of_mem_replicate h]; omega
  · rcases List.mem_singleton.mp h with rfl; omega

theorem encListWith_bytes {α : Type} (f : α → List ℕ)
    (hf : ∀ a, ∀ b ∈ f a, b < 256) (xs : List α) :
    ∀ b ∈ encListWith f xs, b < 256 := by
  intro b hb
  rcases List.mem_append.mp hb with h | h
  · exact encNat_bytes _ b h
  · rcases List.mem_flatten.mp h with ⟨l, hl, hbl⟩
    rcases List.mem_map.mp hl with ⟨a, _, rfl⟩
    exact hf a b hbl

theorem witSer_bytes (x : List (List String)) : ∀ b ∈ witSer x, b < 256 := by
  unfold witSer
  apply encListWith_bytes
  intro col
  apply encListWith_bytes
  intro s
  unfold encStr
  apply encListWith_bytes
  intro ch
  unfold encChar
  exact encNat_bytes ch.toNat

theorem dedupFirst_subset {x : String} :
    ∀ {l : List String}, x ∈ dedupFirst l → x ∈ l := by
  intro l
  induction l with
  | nil => intro h; cases h
  | cons a t ih =>
      intro h
      rcases List.mem_cons.mp h with h | h
      · exact h ▸ List.mem_cons_self a t
      · exact List.mem_cons_of_mem a (ih (List.mem_of_mem_filter h))

theorem groupRows_ne_nil {logs : List LogEntry} {tid : String}
    (h : tid ∈ groupKeys logs) : groupRows logs tid ≠ [] := by
  have h' : tid ∈ logs.filterMap truthyId := dedupFirst_subset h
  rcases List.mem_filterMap.mp h' with ⟨e, he, hte⟩
  have hmem : e ∈ groupEntries logs tid := by
    rw [groupEntries, List.mem_filter]
    exact ⟨he, by simp [hte]⟩
  unfold groupRows
  intro hnil
  rw [List.map_eq_nil_iff] at hnil
  rw [hnil] at hmem
  cases hmem

theorem lookup_keyed (keys : List String) (f : String → Option Block) (tid : String)
    (h : tid ∈ keys) (b : Block) (hb : f tid = some b) :
    (keys.filterMap fun t => (f t).map (Prod.mk t)).lookup tid = some b := by
  induction keys with
  | nil => cases h
  | cons k ks ih =>
      by_cases hk : tid = k
      · subst hk
        rw [List.filterMap_cons, hb]
        show List.lookup tid ((tid, b) :: _) = some b
        simp [List.lookup]
      · have h' : tid ∈ ks := by
          rcases List.mem_cons.mp h with h'' | h''
          · exact absurd h'' hk
          · exact h''
        rw [List.filterMap_cons]
        cases hf : f k with
        | none => exact ih h'
        | some b' =>
            show List.lookup tid ((k, b') :: _) = some b
            have : (tid == k) = false := by simp [hk]
            simp only [List.lookup, this]
            exact ih h'

theorem compress_lookup (c : Codecs) (now : String) (logs : List LogEntry)
    (tid : String) (h : tid ∈ groupKeys logs) :
    (compress_log_block c now logs).lookup tid = some (mkBlock c now logs tid) := by
  have hrows := groupRows_ne_nil h
  have hlogs : logs.isEmpty = false := by
    cases hl : logs with
    | nil =>
        rw [hl] at h
        cases h
    | cons a t => rfl
  unfold compress_log_block
  rw [hlogs]
  simp only [Bool.false_eq_true, if_false]
  apply lookup_keyed _ _ _ h
  unfold blockFor
  rw [if_neg]
  intro hempty
  exact hrows (List.isEmpty_iff.mp hempty)

/-- C1: with the library round-trip contracts as hypotheses, decompressing the
`compressed_params_hex` of the block produced for a template id whose group has
uniform parameter counts yields exactly that group's column arrays. -/
theorem compress_decompress_roundtrip (c : Codecs) (now : String)
    (logs : List LogEntry) (tid : String)
    (hdeser : ∀ x, c.deser (c.ser x) = some x)
    (hdecomp : ∀ bs, c.decomp (c.comp bs) = some bs)
    (hbytes : ∀ x, ∀ b ∈ c.comp (c.ser x), b < 256)
    (hmem : tid ∈ groupKeys logs)
    (huni : ∀ r ∈ groupRows logs tid,
      r.length = ((groupRows logs tid).headD []).length) :
    ∃ blk : Block, (compress_log_block c now logs).lookup tid = some blk ∧
      decompress_block c blk.compressed_params_hex = claimColumns (groupRows logs tid) := by
  refine ⟨mkBlock c now logs tid, compress_lookup c now logs tid hmem, ?_⟩
  have hfilter : (groupRows logs tid).filter
      (fun r => r.length = ((groupRows logs tid).headD []).length) = groupRows logs tid := by
    rw [List.filter_eq_self]
    intro r hr
    simp [huni r hr]
  have h1 : fromHex (toHex (c.comp (c.ser (buildColumns
      ((groupRows logs tid).headD []).length (groupRows logs tid))))) =
      some (c.comp (c.ser (buildColumns ((groupRows logs tid).headD []).length
        (groupRows logs tid)))) :=
    fromHex_toHex _ (hbytes _)
  show decompress_block c (toHex (c.comp (c.ser (buildColumns
    ((groupRows logs tid).headD []).length (groupRows logs tid))))) =
    claimColumns (groupRows logs tid)
  unfold decompress_block decompress_attempt
  rw [h1]
  show (((c.decomp (c.comp (c.ser (buildColumns ((groupRows logs tid).headD []).length
    (groupRows logs tid))))).bind c.deser).getD []) = claimColumns (groupRows logs tid)
  rw [hdecomp]
  show ((c.deser (c.ser (buildColumns ((groupRows logs tid).headD []).length
    (groupRows logs tid)))).getD []) = claimColumns (groupRows logs tid)
  rw [hdeser]
  show buildColumns ((groupRows logs tid).headD []).length (groupRows logs tid) =
    claimColumns (groupRows logs tid)
  unfold buildColumns claimColumns
  rw [hfilter]

/-- A two-event, one-template batch used by the compression witnesses. -/
def demoBatch : List LogEntry :=
  [⟨some "A", ["p", "q"], some "t0"⟩, ⟨some "A", ["r", "s"], some "t1"⟩]

/-- Witness for C1 on `demoBatch` with the concrete codec. -/
theorem compress_decompress_roundtrip_witness :
    ∃ blk : Block, (compress_log_block witCodecs "now" demoBatch).lookup "A" = some blk ∧
      decompress_block witCodecs blk.compressed_params_hex =
        claimColumns (groupRows demoBatch "A") :=
  compress_decompress_roundtrip witCodecs "now" demoBatch "A"
    (fun x => witDeser_witSer x) (fun _ => rfl) (fun x => witSer_bytes x)
    (by decide) (by decide)

/-! ### C10: events with a missing or falsy template id are silently omitted -/

theorem filterMap_truthy_filter (logs : List LogEntry) :
    (logs.filter fun e => (truthyId e).isSome).filterMap truthyId =
      logs.filterMap truthyId := by
  induction logs with
  | nil => rfl
  | cons e t ih =>
      cases he : truthyId e with
      | none => simp [List.filter_cons, List.filterMap_cons, he, ih]
      | some s => simp [List.filter_cons, List.filterMap_cons, he, ih]

theorem groupEntries_truthy_filter (logs : List LogEntry) (tid : String) :
    groupEntries (logs.filter fun e => (truthyId e).isSome) tid =
      groupEntries logs tid := by
  unfold groupEntries
  induction logs with
  | nil => rfl
  | cons e t ih =>
      by_cases he : truthyId e = some tid
      · have hs : (truthyId e).isSome = true := by rw [he]; rfl
        simp [List.filter_cons, he, hs, ih]
      · cases hs : truthyId e with
        | none => simp [List.filter_cons, hs, he, ih]
        | some s => simp [List.filter_cons, hs, he, ih]

theorem groupKeys_truthy_filter (logs : List LogEntry) :
    groupKeys (logs.filter fun e => (truthyId e).isSome) = groupKeys logs := by
  unfold groupKeys
  rw [filterMap_truthy_filter]

theorem mkBlock_truthy_filter (c : Codecs) (now : String) (logs : List LogEntry)
    (tid : String) :
    mkBlock c now (logs.filter fun e => (truthyId e).isSome) tid =
      mkBlock c now logs tid := by
  unfold mkBlock groupRows groupTimes
  rw [groupEntries_truthy_filter]

/-- C10: events whose `template_id` is missing or falsy contribute nothing —
compressing a batch equals compressing the batch with those events removed. -/
theorem compress_skips_falsy (c : Codecs) (now : String) (logs : List LogEntry) :
    compress_log_block c now logs =
      compress_log_block c now (logs.filter fun e => (truthyId e).isSome) := by
  unfold compress_log_block
  cases hl : logs.isEmpty with
  | true =>
      have : logs = [] := List.isEmpty_iff.mp hl
      subst this
      rfl
  | false =>
      simp only [Bool.false_eq_true, if_false]
      cases hf : (logs.filter fun e => (truthyId e).isSome).isEmpty with
      | true =>
          have hnil : (logs.filter fun e => (truthyId e).isSome) = [] :=
            List.isEmpty_iff.mp hf
          have hkeys : groupKeys logs = [] := by
            rw [← groupKeys_truthy_filter, hnil]
            rfl
          rw [hkeys]
          simp
      | false =>
          simp only [Bool.false_eq_true, if_false]
          rw [groupKeys_truthy_filter]
          apply List.filterMap_congr
          intro tid _
          unfold blockFor
          rw [mkBlock_truthy_filter]
          unfold groupRows
          rw [groupEntries_truthy_filter]

/-! ### C8: the drop policy for parameter-count mismatches -/

/-- The column arrays of a list of rows with an explicit column count, as
worded by the claims. -/
def claimColumnsN (n : ℕ) (rows : List (List String)) : List (List String) :=
  (List.range n).map fun i => rows.map (fun r => r.getD i "")

/-- A batch whose second event has a mismatched parameter count. -/
def c8Batch : List LogEntry :=
  [⟨some "A", ["x"], some "t1"⟩, ⟨some "A", ["y", "z"], some "t2"⟩]

set_option maxRecDepth 8000 in
/-- Counterexample to C8: the mismatched event is dropped from the columns, but
it **is** counted in `log_count` (2, not 1) and its timestamp **does** set
`end_time` ("t2", not "t1"). -/
theorem drop_policy_counterexample :
    ((compress_log_block witCodecs "now" c8Batch).lookup "A").map
        (fun b => b.log_count) = some 2 ∧
    ((compress_log_block witCodecs "now" c8Batch).lookup "A").map
        (fun b => b.end_time) = some "t2" ∧
    decompress_block witCodecs
        ((((compress_log_block witCodecs "now" c8Batch).lookup "A").map
          (fun b => b.compressed_params_hex)).getD "") = [["x"]] ∧
    (2 : ℕ) ≠ 1 ∧ "t2" ≠ "t1" := by
  refine ⟨by decide, by decide, by decide, by decide, by decide⟩

/-- C8 as amended: a mismatched event is excluded from the column arrays only;
`log_count` still counts it and `start_time`/`end_time` still range over every
event of the group, and no error is raised (the function is total). -/
theorem drop_policy_amended (c : Codecs) (now : String) (logs : List LogEntry)
    (tid : String)
    (hdeser : ∀ x, c.deser (c.ser x) = some x)
    (hdecomp : ∀ bs, c.decomp (c.comp bs) = some bs)
    (hbytes : ∀ x, ∀ b ∈ c.comp (c.ser x), b < 256)
    (hmem : tid ∈ groupKeys logs) :
    ∃ blk : Block, (compress_log_block c now logs).lookup tid = some blk ∧
      blk.log_count = (groupRows logs tid).length ∧
      blk.start_time = (groupTimes now logs tid).headD "" ∧
      blk.end_time = (groupTimes now logs tid).getLast?.getD "" ∧
      decompress_block c blk.compressed_params_hex =
        claimColumnsN ((groupRows logs tid).headD []).length
          ((groupRows logs tid).filter
            (fun r => r.length = ((groupRows logs tid).headD []).length)) := by
  refine ⟨mkBlock c now logs tid, compress_lookup c now logs tid hmem, rfl, rfl, rfl, ?_⟩
  have h1 : fromHex (toHex (c.comp (c.ser (buildColumns
      ((groupRows logs tid).headD []).length (groupRows logs tid))))) =
      some (c.comp (c.ser (buildColumns ((groupRows logs tid).headD []).length
        (groupRows logs tid)))) :=
    fromHex_toHex _ (hbytes _)
  show decompress_block c (toHex (c.comp (c.ser (buildColumns
    ((groupRows logs tid).headD []).length (groupRows logs tid))))) = _
  unfold decompress_block decompress_attempt
  rw [h1]
  show (((c.decomp (c.comp (c.ser (buildColumns ((groupRows logs tid).headD []).length
    (groupRows logs tid))))).bind c.deser).getD []) = _
  rw [hdecomp]
  show ((c.deser (c.ser (buildColumns ((groupRows logs tid).headD []).length
    (groupRows logs tid)))).getD []) = _
  rw [hdeser]
  rfl

/-- Witness for the amended C8 on the mismatched batch with the concrete codec. -/
theorem drop_policy_amended_witness :
    ∃ blk : Block, (compress_log_block witCodecs "now" c8Batch).lookup "A" = some blk ∧
      blk.log_count = (groupRows c8Batch "A").length ∧
      blk.start_time = (groupTimes "now" c8Batch "A").headD "" ∧
      blk.end_time = (groupTimes "now" c8Batch "A").getLast?.getD "" ∧
      decompress_block witCodecs blk.compressed_params_hex =
        claimColumnsN ((groupRows c8Batch "A").headD []).length
          ((groupRows c8Batch "A").filter
            (fun r => r.length = ((groupRows c8Batch "A").headD []).length)) :=
  drop_policy_amended witCodecs "now" c8Batch "A"
    (fun x => witDeser_witSer x) (fun _ => rfl) (fun x => witSer_bytes x) (by decide)

/-! ### C6: decompression failure handling -/

/-- Counterexample to C6: on malformed input the decompression attempt fails,
but `decompress_block` swallows the exception and returns the ordinary value
`[]` to the caller instead of surfacing an error. -/
theorem decompress_error_swallowed_counterexample :
    decompress_attempt witCodecs "zz" = none ∧
    decompress_block witCodecs "zz" = [] := by
  exact ⟨rfl, rfl⟩

/-- C6 as amended: whenever hex decoding, decompression or deserialization
fails, `decompress_block` catches the exception and returns the empty list —
no partial result, but also no error surfaced to the caller. -/
theorem decompress_catches_errors (c : Codecs) (hex : String)
    (hfail : decompress_attempt c hex = none) :
    decompress_block c hex = [] := by
  unfold decompress_block
  rw [hfail]
  rfl

/-- Witness for the amended C6 at a concrete malformed input. -/
theorem decompress_catches_errors_witness :
    decompress_block witCodecs "zz" = [] :=
  decompress_catches_errors witCodecs "zz" rfl

/-! ### Template mining (`template_parser.py`)

The six substitution regexes and the two `findall` regexes are modelled by
direct matchers over `List Char` (ASCII character classes; Python's greedy
backtracking collapses to maximal-run matching for these patterns, except in
the timestamp's optional tail, which is handled explicitly).  `re.sub` /
`re.findall` are the left-to-right non-overlapping scans `subAll`/`findAll`;
they carry the previous original character for `\b` word-boundary tests and a
structural fuel (one per character) so that they compute by `decide`.
`hashlib.md5(...).hexdigest()` is an external call, modelled as an explicit
`hash : String → String` parameter of `parse`. -/

/-- Python `\w` (ASCII fragment). -/
def isWordChar (c : Char) : Bool := c.isAlpha || c.isDigit || c = '_'

/-- Word-character test on the optional previous/next character; `none`
(string edge) counts as non-word, as in `\b`. -/
def wordOpt : Option Char → Bool
  | none => false
  | some c => isWordChar c

/-- Python `\s` (ASCII fragment). -/
def isSpaceB (c : Char) : Bool :=
  c = ' ' || c = '\t' || c = '\n' || c = '\r' || c = '\x0b' || c = '\x0c'

/-- Python `[a-fA-F0-9]`. -/
def isHexB (c : Char) : Bool :=
  c.isDigit || ('a' ≤ c && c ≤ 'f') || ('A' ≤ c && c ≤ 'F')

/-- Length of the maximal run of characters satisfying `p`. -/
def countP (p : Char → Bool) (l : List Char) : ℕ := (l.takeWhile p).length

/-- `\b` holds after the last matched character `c` iff the next character is
non-word (class characters are word characters, so backtracking cannot help). -/
def noWordNext : List Char → Bool
  | [] => true
  | d :: _ => !(isWordChar d)

/-- Matcher for `\b\d+\b` at the current position. -/
def matchNum (prev : Option Char) (rest : List Char) : Option ℕ :=
  match rest with
  | [] => none
  | c :: _ =>
      if c.isDigit && !(wordOpt prev) then
        let n := countP Char.isDigit rest
        if noWordNext (rest.drop n) then some n else none
      else none

/-- Matcher for `\b[a-fA-F0-9]{16,}\b` at the current position. -/
def matchHex (prev : Option Char) (rest : List Char) : Option ℕ :=
  match rest with
  | [] => none
  | c :: _ =>
      if isHexB c && !(wordOpt prev) then
        let n := countP isHexB rest
        if 16 ≤ n && noWordNext (rest.drop n) then some n else none
      else none

/-- The character class of the path pattern: word characters, dash, slash
and dot. -/
def isPathChar (c : Char) : Bool := isWordChar c || c = '-' || c = '/' || c = '.'

/-- Matcher for the filesystem-path pattern: a literal slash followed by one
or more path-class characters (no word boundaries). -/
def matchPath (_prev : Option Char) (rest : List Char) : Option ℕ :=
  match rest with
  | '/' :: tl =>
      let n := countP isPathChar tl
      if n = 0 then none else some (n + 1)
  | _ => none

/-- Python `[0-9a-fA-F-]` from the UUID pattern. -/
def isUuidChar (c : Char) : Bool := isHexB c || c = '-'

/-- Matcher for `\b[0-9a-fA-F-]{36}\b`: exactly 36 class characters with a
word boundary on both sides ('-' is a non-word class character, so the full
two-sided boundary test is needed). -/
def matchUuid (prev : Option Char) (rest : List Char) : Option ℕ :=
  let first36 := rest.take 36
  if first36.length == 36 && first36.all isUuidChar
      && (wordOpt prev != wordOpt rest.head?)
      && (wordOpt first36.getLast? != wordOpt (rest.drop 36).head?) then
    some 36
  else none

/-- One `\d{1,3}` group: the maximal digit run, which must have length 1–3
(a longer run cannot be saved by backtracking, since the following literal
is '.' or a word boundary). -/
def octet (l : List Char) : Option (ℕ × List Char) :=
  let n := countP Char.isDigit l
  if n = 0 || 3 < n then none else some (n, l.drop n)

/-- Expect one literal character. -/
def expectChar (c : Char) : List Char → Option (List Char)
  | d :: l => if d = c then some l else none
  | [] => none

/-- Matcher for both IP regexes, `\b\d{1,3}\.\d{1,3}\.\d{1,3}\.\d{1,3}\b` and
`\b\d{1,3}(?:\.\d{1,3}){3}\b` (the same language). -/
def matchIp (prev : Option Char) (rest : List Char) : Option ℕ :=
  if wordOpt prev then none
  else
    (octet rest).bind fun p1 =>
    (expectChar '.' p1.2).bind fun l1 =>
    (octet l1).bind fun p2 =>
    (expectChar '.' p2.2).bind fun l2 =>
    (octet l2).bind fun p3 =>
    (expectChar '.' p3.2).bind fun l3 =>
    (octet l3).bind fun p4 =>
    if noWordNext p4.2 then some (p1.1 + p2.1 + p3.1 + p4.1 + 3) else none

/-- Exactly `k` digits (`\d{k}`). -/
def digitsExactly (k : ℕ) (l : List Char) : Option (List Char) :=
  if (l.take k).all Char.isDigit && (l.take k).length == k then some (l.drop k)
  else none

/-- The separator class `[ T]` of the timestamp pattern. -/
def expectSep : List Char → Option (List Char)
  | c :: l => if c = ' ' || c = 'T' then some l else none
  | [] => none

/-- The optional tail `(?:\.\d+)?Z?\b` of the timestamp pattern, entered right
after the seconds digits; returns the number of extra characters consumed.
Backtracking: if `\b` fails after an optional part, the engine retries with
that part dropped (shrinking a digit run never helps, since `\b` between two
word characters fails). -/
def tsTail : List Char → Option ℕ
  | [] => some 0
  | '.' :: l' =>
      let m := countP Char.isDigit l'
      if m = 0 then some 0
      else
        match l'.drop m with
        | 'Z' :: l'' => if noWordNext l'' then some (m + 2) else some 0
        | [] => some (m + 1)
        | d :: _ => if isWordChar d then some 0 else some (m + 1)
  | 'Z' :: l' => if noWordNext l' then some 1 else none
  | d :: _ => if isWordChar d then none else some 0

/-- Matcher for
`\b\d{4}-\d{2}-\d{2}[ T]\d{2}:\d{2}:\d{2}(?:\.\d+)?Z?\b`. -/
def matchTs (prev : Option Char) (rest : List Char) : Option ℕ :=
  if wordOpt prev then none
  else
    (digitsExactly 4 rest).bind fun l =>
    (expectChar '-' l).bind fun l =>
    (digitsExactly 2 l).bind fun l =>
    (expectChar '-' l).bind fun l =>
    (digitsExactly 2 l).bind fun l =>
    (expectSep l).bind fun l =>
    (digitsExactly 2 l).bind fun l =>
    (expectChar ':' l).bind fun l =>
    (digitsExactly 2 l).bind fun l =>
    (expectChar ':' l).bind fun l =>
    (digitsExactly 2 l).bind fun l =>
    (tsTail l).map fun extra => 19 + extra

/-- `re.sub` as a left-to-right non-overlapping scan.  `prev` is the previous
character of the *original* string (Python computes all matches on the input
before substituting).  The fuel is one unit per character; every step consumes
at least one character, so `l.length` fuel never runs out.  Our matchers never
match the empty string, so a `some 0` result is treated as no match. -/
def subAllF (m : Option Char → List Char → Option ℕ) (repl : List Char) :
    ℕ → Option Char → List Char → List Char
  | 0, _, _ => []
  | _ + 1, _, [] => []
  | fuel + 1, prev, c :: cs =>
      match m prev (c :: cs) with
      | some (n + 1) =>
          repl ++ subAllF m repl fuel (((c :: cs).take (n + 1)).getLast?)
            ((c :: cs).drop (n + 1))
      | _ => c :: subAllF m repl fuel (some c) cs

def subAll (m : Option Char → List Char → Option ℕ) (repl : List Char)
    (l : List Char) : List Char :=
  subAllF m repl l.length none l

/-- `re.findall` under the same scanning scheme. -/
def findAllF (m : Option Char → List Char → Option ℕ) :
    ℕ → Option Char → List Char → List (List Char)
  | 0, _, _ => []
  | _ + 1, _, [] => []
  | fuel + 1, prev, c :: cs =>
      match m prev (c :: cs) with
      | some (n + 1) =>
          (c :: cs).take (n + 1) :: findAllF m fuel (((c :: cs).take (n + 1)).getLast?)
            ((c :: cs).drop (n + 1))
      | _ => findAllF m fuel (some c) cs

def findAll (m : Option Char → List Char → Option ℕ) (l : List Char) :
    List (List Char) :=
  findAllF m l.length none l

/-- `str.strip()` (ASCII whitespace). -/
def stripWs (l : List Char) : List Char :=
  ((l.dropWhile isSpaceB).reverse.dropWhile isSpaceB).reverse

/-- `re.sub(r"\s+", " ", text)`: collapse whitespace runs to single spaces. -/
def collapseWsF : ℕ → List Char → List Char
  | 0, _ => []
  | _ + 1, [] => []
  | fuel + 1, c :: cs =>
      if isSpaceB c then ' ' :: collapseWsF fuel (cs.dropWhile isSpaceB)
      else c :: collapseWsF fuel cs

/-- `_normalize_text`: strip, then collapse whitespace runs. -/
def normalize_text (s : String) : String :=
  String.mk (collapseWsF (stripWs s.data).length (stripWs s.data))

/-- `str.split()`: split on whitespace runs, dropping empty tokens. -/
def splitWsF : ℕ → List Char → List (List Char)
  | 0, _ => []
  | _ + 1, [] => []
  | fuel + 1, c :: cs =>
      if isSpaceB c then splitWsF fuel cs
      else
        (c :: cs).takeWhile (fun d => !(isSpaceB d)) ::
          splitWsF fuel ((c :: cs).dropWhile (fun d => !(isSpaceB d)))

def splitWs (l : List Char) : List (List Char) := splitWsF l.length l

/-- `re.match(r"^<.*>$", token)` on a whitespace-free token: first character
`<`, last character `>`, length at least 2. -/
def isPlaceholderToken : List Char → Bool
  | '<' :: rest =>
      match rest.getLast? with
      | some '>' => true
      | _ => false
  | _ => false

/-- The ordered substitution chain from `self.patterns` applied to the
normalized message. -/
def processedMessage (norm : List Char) : List Char :=
  let s1 := subAll matchIp "<IP>".data norm
  let s2 := subAll matchUuid "<UUID>".data s1
  let s3 := subAll matchTs "<TIMESTAMP>".data s2
  let s4 := subAll matchPath "<PATH>".data s3
  let s5 := subAll matchNum "<NUM>".data s4
  subAll matchHex "<HEX>".data s5

/-- Steps 1–4 of `parse`: normalize, substitute, tokenize, and join the
wildcard/literal tokens into the canonical template string. -/
def templateOf (msg : String) : String :=
  let tokens := splitWs (processedMessage (normalize_text msg).data)
  let parts := tokens.map fun t => if isPlaceholderToken t then ['*'] else t
  String.mk (List.intercalate [' '] parts)

/-- Step 4 of `parse`: `re.findall(r"\b\d+\b", ...)` +
`re.findall(r"\b\d{1,3}(?:\.\d{1,3}){3}\b", ...)` over the normalized
message, concatenated in that order. -/
def allParams (msg : String) : List String :=
  (findAll matchNum (normalize_text msg).data).map String.mk ++
    (findAll matchIp (normalize_text msg).data).map String.mk

/-- One entry of `template_dict`; the defaultdict default is `⟨"", 0⟩`. -/
structure TemplateEntry where
  template : String
  count : ℕ
deriving DecidableEq

/-- The shared template registry, modelled as a total function with the
defaultdict default. -/
def TemplateDict : Type := String → TemplateEntry

def emptyDict : TemplateDict := fun _ => ⟨"", 0⟩

structure ParseResult where
  template_id : String
  template : String
  parameters : List String
  template_frequency : ℕ
deriving DecidableEq

/-- The `ValueError("Invalid log message: ...")` raised on blank input. -/
inductive ParseError where
  | invalidInput
deriving DecidableEq

/-- `not log_message.strip()`. -/
def blank (s : String) : Bool := (stripWs s.data).isEmpty

/-- Embedding of `TemplateParser.parse`: `hash` stands for the external
`hashlib.md5(...).hexdigest()` call; the registry is passed and returned
explicitly. -/
def parse (hash : String → String) (st : TemplateDict) (msg : String) :
    Except ParseError (ParseResult × TemplateDict) :=
  if blank msg then .error .invalidInput
  else
    let tmpl := templateOf msg
    let tid := hash tmpl
    let entry := st tid
    let entry' : TemplateEntry :=
      { template := if entry.count = 0 then tmpl else entry.template
        count := entry.count + 1 }
    let st' : TemplateDict := fun k => if k = tid then entry' else st k
    .ok ({ template_id := tid
           template := tmpl
           parameters := allParams msg
           template_frequency := entry'.count }, st')

/-! ### Parser theorems -/

/-- The template id of a successful parse, `none` on failure. -/
def resultId (r : Except ParseError (ParseResult × TemplateDict)) : Option String :=
  match r with
  | .ok p => some p.1.template_id
  | .error _ => none

/-- C9: the template id reported by `parse` depends only on the message text,
never on the registry state (or therefore on call order). -/
theorem parse_deterministic (hash : String → String) (st₁ st₂ : TemplateDict)
    (msg : String) :
    resultId (parse hash st₁ msg) = resultId (parse hash st₂ msg) := by
  unfold parse
  by_cases hb : blank msg = true
  · simp [hb, resultId]
  · simp only [Bool.not_eq_true] at hb
    simp [hb, resultId]

/-- C5: a message consisting only of whitespace (in particular the empty
message) is rejected with the invalid-input error; no result and no updated
registry are produced. -/
theorem parse_rejects_blank (hash : String → String) (st : TemplateDict)
    (msg : String) (h : ∀ c ∈ msg.data, isSpaceB c = true) :
    parse hash st msg = .error .invalidInput := by
  have hstrip : stripWs msg.data = [] := by
    unfold stripWs
    have h1 : msg.data.dropWhile isSpaceB = [] := by
      rw [List.dropWhile_eq_nil_iff]
      exact h
    rw [h1]
    rfl
  have hb : blank msg = true := by
    unfold blank
    rw [hstrip]
    rfl
  unfold parse
  rw [if_pos hb]

/-- Witness for C5 at a concrete whitespace-only message. -/
theorem parse_rejects_blank_witness :
    parse (fun s => s) emptyDict "  " = .error .invalidInput :=
  parse_rejects_blank (fun s => s) emptyDict "  " (by decide)

/-- The registry after a successful parse of a message with template `tmpl`
and id `tid`: set the template on first sighting and increment the counter. -/
def bumpDict (st : TemplateDict) (tmpl tid : String) : TemplateDict :=
  fun k => if k = tid then
    { template := if (st tid).count = 0 then tmpl else (st tid).template
      count := (st tid).count + 1 }
  else st k

/-- Unfolding of a successful parse step. -/
theorem parse_step (hash : String → String) (st : TemplateDict) (msg : String)
    (h : blank msg = false) :
    parse hash st msg = .ok
      ({ template_id := hash (templateOf msg)
         template := templateOf msg
         parameters := allParams msg
         template_frequency := (st (hash (templateOf msg))).count + 1 },
        bumpDict st (templateOf msg) (hash (templateOf msg))) := by
  unfold parse bumpDict
  rw [h]
  rfl

/-- Sequential parsing of a list of messages, propagating the registry
(the error case cannot occur for non-blank messages). -/
def parseMany (hash : String → String) (st : TemplateDict) :
    List String → Except ParseError (List ParseResult × TemplateDict)
  | [] => .ok ([], st)
  | m :: ms =>
      match parse hash st m with
      | .error e => .error e
      | .ok (r, st') =>
          match parseMany hash st' ms with
          | .error e => .error e
          | .ok (rs, st'') => .ok (r :: rs, st'')

/-- C7: after `k` sequential `parse` calls whose messages all map to template
id `tid`, that counter equals its pre-call value plus `k`, and the final call
reports exactly that value as `template_frequency`. -/
theorem parse_frequency_monotone (hash : String → String) (st : TemplateDict)
    (msgs : List String) (tid : String) (hne : msgs ≠ [])
    (hmsgs : ∀ m ∈ msgs, blank m = false ∧ hash (templateOf m) = tid) :
    ∃ rs st', parseMany hash st msgs = .ok (rs, st') ∧
      (st' tid).count = (st tid).count + msgs.length ∧
      rs.getLast?.map (fun r => r.template_frequency) =
        some ((st tid).count + msgs.length) := by
  induction msgs generalizing st with
  | nil => exact absurd rfl hne
  | cons m ms ih =>
      obtain ⟨hbm, hidm⟩ := hmsgs m (List.mem_cons_self m ms)
      have hstep : parseMany hash st (m :: ms) =
          match parseMany hash (bumpDict st (templateOf m) tid) ms with
          | .error e => .error e
          | .ok (rs, st'') => .ok
              ({ template_id := tid
                 template := templateOf m
                 parameters := allParams m
                 template_frequency := (st tid).count + 1 } :: rs, st'') := by
        show (match parse hash st m with
              | Except.error e => Except.error e
              | Except.ok (r, st') =>
                  match parseMany hash st' ms with
                  | Except.error e => Except.error e
                  | Except.ok (rs, st'') => Except.ok (r :: rs, st'')) = _
        rw [parse_step hash st m hbm, hidm]
      have hbump : (bumpDict st (templateOf m) tid tid).count = (st tid).count + 1 := by
        unfold bumpDict
        simp
      cases hms : ms with
      | nil =>
          rw [hms] at hstep
          rw [hstep]
          refine ⟨_, _, rfl, ?_, ?_⟩
          · show (bumpDict st (templateOf m) tid tid).count = _
            rw [hbump]
            rfl
          · rfl
      | cons m₀ ms₀ =>
          rw [← hms]
          have hms_ne : ms ≠ [] := by rw [hms]; exact List.cons_ne_nil m₀ ms₀
          obtain ⟨rs', st'', hfold, hcount, hlast⟩ :=
            ih (bumpDict st (templateOf m) tid) hms_ne
              (fun m' hm' => hmsgs m' (List.mem_cons_of_mem m hm'))
          rw [hstep, hfold]
          refine ⟨_, _, rfl, ?_, ?_⟩
          · rw [hcount, hbump, List.length_cons]
            omega
          · have hrs_ne : rs' ≠ [] := by
              intro hnil
              rw [hnil] at hlast
              simp at hlast
            cases hrs : rs' with
            | nil => exact absurd hrs hrs_ne
            | cons r₀ rs₀ =>
                rw [List.getLast?_cons_cons]
                rw [hrs] at hlast
                rw [hlast, hbump, List.length_cons]
                simp only [Option.some.injEq]
                omega

/-- Witness for C7: two calls on the same message starting from the empty
registry. -/
theorem parse_frequency_monotone_witness :
    ∃ rs st', parseMany (fun s => s) emptyDict ["sync ok", "sync ok"] = .ok (rs, st') ∧
      (st' (templateOf "sync ok")).count =
        (emptyDict (templateOf "sync ok")).count + 2 ∧
      rs.getLast?.map (fun r => r.template_frequency) =
        some ((emptyDict (templateOf "sync ok")).count + 2) :=
  parse_frequency_monotone (fun s => s) emptyDict ["sync ok", "sync ok"]
    (templateOf "sync ok") (by decide)
    (by
      intro m hm
      have hm' : m = "sync ok" := by
        rcases List.mem_cons.mp hm with h | h
        · exact h
        · rcases List.mem_cons.mp h with h' | h'
          · exact h'
          · cases h'
      subst hm'
      exact ⟨by decide, rfl⟩)

set_option maxRecDepth 20000 in
/-- Counterexample to C2: on `"User 123 logged in from 192.168.1.1"` the
template is as claimed, but the parameters are the re-extracted bare integers
followed by the IPv4 addresses — `["123","192","168","1","1","192.168.1.1"]`
— not `["123","192.168.1.1"]`. -/
theorem scenario1_counterexample :
    (parse (fun s => s) emptyDict "User 123 logged in from 192.168.1.1").toOption.map
        (fun p => (p.1.template, p.1.parameters)) =
      some ("User * logged in from *",
        ["123", "192", "168", "1", "1", "192.168.1.1"]) ∧
    (["123", "192", "168", "1", "1", "192.168.1.1"] : List String) ≠
      ["123", "192.168.1.1"] := by
  exact ⟨by decide, by decide⟩

set_option maxRecDepth 20000 in
/-- C2 as amended: for any hash function and registry state, parsing
`"User 123 logged in from 192.168.1.1"` succeeds with template
`"User * logged in from *"` and parameters
`["123", "192", "168", "1", "1", "192.168.1.1"]` (the `\b\d+\b` matches of the
normalized message followed by its IPv4 matches, in that order). -/
theorem scenario1_amended (hash : String → String) (st : TemplateDict) :
    ∃ r st', parse hash st "User 123 logged in from 192.168.1.1" = .ok (r, st') ∧
      r.template = "User * logged in from *" ∧
      r.parameters = ["123", "192", "168", "1", "1", "192.168.1.1"] := by
  rw [parse_step hash st _ (by decide)]
  refine ⟨_, _, rfl, ?_, ?_⟩
  · show templateOf "User 123 logged in from 192.168.1.1" = "User * logged in from *"
    decide
  · show allParams "User 123 logged in from 192.168.1.1" =
      ["123", "192", "168", "1", "1", "192.168.1.1"]
    decide

end LogMgmt
